import Mathlib

/-!
Shallow embedding of `src/App.tsx` (the `DishListApp` React Native component).

The component state is four form fields plus the dish collection.  The three
operations are `addDish` (the Submit handler), `removeDish` (tap on a card)
and the derived view (`sortedDishes`, `categoryCounts`, `totalDishes`)
recomputed from the collection.  User interaction is modelled as a list of
`Event`s folded over the initial state.
-/

/-- A dish record, mirroring the `Dish` interface of `App.tsx`:
every field, the identifier included, is a string. -/
structure Dish where
  id : String
  name : String
  description : String
  course : String
  price : String
deriving DecidableEq, Repr

/-- The component state: the four `useState` form fields
(`dishName`, `description`, `course`, `price`) and the `dishes` list. -/
structure AppState where
  dishName : String
  description : String
  course : String
  price : String
  dishes : List Dish
deriving DecidableEq, Repr

/-- The initial state: `useState("")`, `useState("")`, `useState("Starter")`,
`useState("")`, `useState<Dish[]>([])`. -/
def initialState : AppState :=
  { dishName := "", description := "", course := "Starter", price := "", dishes := [] }

/-- Little-endian base-10 digits of `n`, with explicit fuel so that the
recursion is structural (the kernel can evaluate it). -/
def digitsFuel : Nat → Nat → List Nat
  | 0, _ => []
  | _ + 1, 0 => []
  | f + 1, n + 1 => (n + 1) % 10 :: digitsFuel f ((n + 1) / 10)

/-- Little-endian base-10 digits of `n` (`n` itself is always enough fuel). -/
def jsDigits (n : Nat) : List Nat := digitsFuel n n

/-- Model of JavaScript `Number.prototype.toString()` on the non-negative
integer returned by `Date.now()`: the decimal numeral of `n`. -/
def jsToString (n : Nat) : String :=
  if n = 0 then "0" else String.mk (((jsDigits n).map Nat.digitChar).reverse)

/-- Model of JavaScript `String.prototype.trim()`: strip leading and trailing
whitespace characters. -/
def jsTrim (s : String) : String :=
  String.mk (((s.data.dropWhile Char.isWhitespace).reverse.dropWhile Char.isWhitespace).reverse)

/-- The Submit handler `addDish` of `App.tsx`.  `now` is the value returned by
`Date.now()` at the moment of the call.  The guard `if (!dishName || !price)
return;` tests the UNTRIMMED fields for emptiness (JavaScript falsiness of a
string); the stored fields are trimmed.  On success the new dish is appended
(`[...prev, newDish]`) and the four form fields are reset. -/
def addDish (s : AppState) (now : Nat) : AppState :=
  if s.dishName = "" ∨ s.price = "" then s
  else
    { dishName := "", description := "", course := "Starter", price := "",
      dishes := s.dishes ++
        [{ id := jsToString now, name := jsTrim s.dishName,
           description := jsTrim s.description, course := s.course,
           price := jsTrim s.price }] }

/-- `removeDish` of `App.tsx`: `prev.filter((dish) => dish.id !== id)`. -/
def removeDish (s : AppState) (targetId : String) : AppState :=
  { s with dishes := s.dishes.filter (fun d => d.id ≠ targetId) }

/-- The sorting order `["Starter", "Main Course", "Dessert", "Drink"]`. -/
def order : List String := ["Starter", "Main Course", "Dessert", "Drink"]

/-- JavaScript `Array.prototype.indexOf`: index of the first occurrence,
`-1` when absent. -/
def jsIndexOf (xs : List String) (x : String) : Int :=
  match xs.findIdx? (fun y => y = x) with
  | some i => (i : Int)
  | none => -1

/-- The sort comparator `(a, b) => order.indexOf(a.course) - order.indexOf(b.course)`
keeps `a` no later than `b` exactly when the difference is non-positive. -/
def courseLe (a b : Dish) : Prop := jsIndexOf order a.course ≤ jsIndexOf order b.course

instance : DecidableRel courseLe := fun a b =>
  Int.decLe (jsIndexOf order a.course) (jsIndexOf order b.course)

/-- `[...dishes].sort(comparator)`: JavaScript `Array.prototype.sort` is
required to be stable, so it is modelled by a stable sort with the
comparator's relation. -/
def sortedDishes (dishes : List Dish) : List Dish := dishes.insertionSort courseLe

/-- The `counts` object literal with its four keys. -/
structure CategoryCounts where
  starter : Nat
  mainCourse : Nat
  dessert : Nat
  drink : Nat
deriving DecidableEq, Repr

/-- One step of `sorted.forEach((dish) => counts[dish.course]++)`: a course
outside the four keys would not touch any of the four counters. -/
def bumpCount (c : CategoryCounts) (course : String) : CategoryCounts :=
  if course = "Starter" then { c with starter := c.starter + 1 }
  else if course = "Main Course" then { c with mainCourse := c.mainCourse + 1 }
  else if course = "Dessert" then { c with dessert := c.dessert + 1 }
  else if course = "Drink" then { c with drink := c.drink + 1 }
  else c

/-- `categoryCounts` of the `useMemo` block: tally the sorted list starting
from all-zero counters. -/
def categoryCounts (dishes : List Dish) : CategoryCounts :=
  (sortedDishes dishes).foldl (fun c d => bumpCount c d.course) ⟨0, 0, 0, 0⟩

/-- `const totalDishes = dishes.length`. -/
def totalDishes (dishes : List Dish) : Nat := dishes.length

/-- The derived view: the `useMemo` computation together with the state it
reads, returned unchanged (the source sorts a copy `[...dishes]`, never the
stored array). -/
def derivedView (s : AppState) : (List Dish × CategoryCounts) × AppState :=
  ((sortedDishes s.dishes, categoryCounts s.dishes), s)

/-- The user-interaction events the screen dispatches: the four field
`onChangeText` / `onValueChange` setters, the Add button, a tap on a card. -/
inductive Event where
  | setDishName (v : String)
  | setDescription (v : String)
  | setCourse (v : String)
  | setPrice (v : String)
  | submit (now : Nat)
  | tapDish (targetId : String)
deriving DecidableEq, Repr

/-- One event handler dispatch. -/
def step (s : AppState) : Event → AppState
  | .setDishName v => { s with dishName := v }
  | .setDescription v => { s with description := v }
  | .setCourse v => { s with course := v }
  | .setPrice v => { s with price := v }
  | .submit now => addDish s now
  | .tapDish t => removeDish s t

/-- Run a session: fold the events over the initial state. -/
def run (evs : List Event) : AppState := evs.foldl step initialState

/-- The values offered by the course `Picker` (its four `Picker.Item`s). -/
def pickerValues : List String := ["Starter", "Main Course", "Dessert", "Drink"]

/-- The `Date.now()` values of the submit events of a session, in order. -/
def submitTimes (evs : List Event) : List Nat :=
  evs.filterMap (fun e => match e with | .submit t => some t | _ => none)

/-- The value of a little-endian digit list, inverse of `jsDigits`. -/
def undigits : List Nat → Nat
  | [] => 0
  | d :: ds => d + 10 * undigits ds

/-- The dish appended by a successful Submit from state `s` at time `now`. -/
def newDish (s : AppState) (now : Nat) : Dish :=
  { id := jsToString now, name := jsTrim s.dishName, description := jsTrim s.description,
    course := s.course, price := jsTrim s.price }

example : jsToString 0 = "0" := by decide
example : jsToString 1762345678901 = "1762345678901" := by decide
example : jsTrim " abc " = "abc" := by decide
example : jsTrim " " = "" := by decide
example :
    run [.setDishName "Soup", .setPrice "45", .submit 7] =
      { dishName := "", description := "", course := "Starter", price := "",
        dishes := [{ id := "7", name := "Soup", description := "", course := "Starter",
                     price := "45" }] } := by decide

lemma addDish_noop (s : AppState) (now : Nat) (h : s.dishName = "" ∨ s.price = "") :
    addDish s now = s := by
  rcases h with h | h <;> simp [addDish, h]

lemma addDish_success (s : AppState) (now : Nat) (h1 : s.dishName ≠ "") (h2 : s.price ≠ "") :
    addDish s now =
      { dishName := "", description := "", course := "Starter", price := "",
        dishes := s.dishes ++ [newDish s now] } := by
  simp [addDish, h1, h2, newDish]

/-- Claim C8: submitting with an empty name, or an empty price, or both leaves
the state (the collection in particular) unchanged, with no error and no other
side effect. -/
theorem C8_empty_fields_noop (s : AppState) (now : Nat)
    (h : s.dishName = "" ∨ s.price = "") : addDish s now = s :=
  addDish_noop s now h

/-- Claim C8, witness: a concrete submission with an empty name is a no-op. -/
theorem C8_empty_fields_noop_witness :
    addDish { dishName := "", description := "d", course := "Starter", price := "5",
              dishes := [] } 3 =
      { dishName := "", description := "d", course := "Starter", price := "5",
        dishes := [] } :=
  C8_empty_fields_noop _ 3 (Or.inl rfl)

/-- Claim C5: with a non-empty name and a non-empty price, Submit appends
exactly one dish at the end of the collection, whose name, description and
price are the trimmed inputs and whose course is the selected course. -/
theorem C5_submit_appends (s : AppState) (now : Nat)
    (h1 : s.dishName ≠ "") (h2 : s.price ≠ "") :
    (addDish s now).dishes =
      s.dishes ++
        [{ id := jsToString now, name := jsTrim s.dishName,
           description := jsTrim s.description, course := s.course,
           price := jsTrim s.price }] := by
  rw [addDish_success s now h1 h2]
  rfl

/-- Claim C5, witness: a concrete successful submission. -/
theorem C5_submit_appends_witness :
    (addDish { dishName := " Soup ", description := " Hot broth ", course := "Starter",
               price := " 45 ", dishes := [] } 7).dishes =
      [{ id := "7", name := "Soup", description := "Hot broth", course := "Starter",
         price := "45" }] := by
  rw [C5_submit_appends
    { dishName := " Soup ", description := " Hot broth ", course := "Starter",
      price := " 45 ", dishes := [] } 7 (by decide) (by decide)]
  decide

/-- Claim C7: after a successful submission the four form fields are reset to
their defaults: empty name, empty description, course "Starter", empty price. -/
theorem C7_fields_reset (s : AppState) (now : Nat)
    (h1 : s.dishName ≠ "") (h2 : s.price ≠ "") :
    (addDish s now).dishName = "" ∧ (addDish s now).description = "" ∧
    (addDish s now).course = "Starter" ∧ (addDish s now).price = "" := by
  rw [addDish_success s now h1 h2]
  exact ⟨rfl, rfl, rfl, rfl⟩

/-- Claim C7, witness: the reset at a concrete successful submission. -/
theorem C7_fields_reset_witness :
    (addDish { dishName := "Tea", description := "", course := "Drink", price := "20",
               dishes := [] } 9).dishName = "" ∧
    (addDish { dishName := "Tea", description := "", course := "Drink", price := "20",
               dishes := [] } 9).description = "" ∧
    (addDish { dishName := "Tea", description := "", course := "Drink", price := "20",
               dishes := [] } 9).course = "Starter" ∧
    (addDish { dishName := "Tea", description := "", course := "Drink", price := "20",
               dishes := [] } 9).price = "" :=
  C7_fields_reset
    { dishName := "Tea", description := "", course := "Drink", price := "20", dishes := [] }
    9 (by decide) (by decide)

/-- Claim C1, counterexample: a whitespace-only name is empty after trimming,
so by the claim Submit should be a no-op, yet the code appends a dish: the
guard tests the raw, untrimmed fields. -/
theorem C1_counterexample :
    jsTrim " " = "" ∧
    (addDish ⟨" ", "", "Starter", "7", []⟩ 5).dishes ≠
      (⟨" ", "", "Starter", "7", []⟩ : AppState).dishes ∧
    (addDish ⟨" ", "", "Starter", "7", []⟩ 5).dishes.length = 1 := by decide

/-- Claim C1, amended: Submit appends a dish if and only if the name and the
price are non-empty as entered (no trimming before the emptiness check); when
that untrimmed check fails, Submit is a no-op on the entire state. -/
theorem C1_amended_guard (s : AppState) (now : Nat) :
    ((∃ d, (addDish s now).dishes = s.dishes ++ [d]) ↔ s.dishName ≠ "" ∧ s.price ≠ "") ∧
    ((s.dishName = "" ∨ s.price = "") → addDish s now = s) := by
  constructor
  · constructor
    · rintro ⟨d, hd⟩
      by_cases h1 : s.dishName = ""
      · rw [addDish_noop s now (Or.inl h1)] at hd
        have := congrArg List.length hd
        simp at this
      · by_cases h2 : s.price = ""
        · rw [addDish_noop s now (Or.inr h2)] at hd
          have := congrArg List.length hd
          simp at this
        · exact ⟨h1, h2⟩
    · rintro ⟨h1, h2⟩
      exact ⟨newDish s now, by rw [addDish_success s now h1 h2]⟩
  · exact addDish_noop s now

/-- Claim C1, witness for the amended form: an empty-name submission is a
no-op, and a concrete filled form does append. -/
theorem C1_amended_guard_witness :
    addDish ⟨"", "x", "Starter", "9", []⟩ 4 = ⟨"", "x", "Starter", "9", []⟩ :=
  (C1_amended_guard ⟨"", "x", "Starter", "9", []⟩ 4).2 (Or.inl rfl)

/-- Claim C9: computing the derived view leaves the state (hence the stored
collection and its insertion order) unchanged, and the derived sequence is a
permutation of the stored collection, of the same length. -/
theorem C9_derived_view_frame (s : AppState) :
    (derivedView s).2 = s ∧ ((derivedView s).1.1).Perm s.dishes ∧
    ((derivedView s).1.1).length = s.dishes.length := by
  refine ⟨rfl, ?_, ?_⟩
  · exact List.perm_insertionSort courseLe s.dishes
  · exact List.length_insertionSort courseLe s.dishes

lemma foldl_bumpCount_eq (l : List Dish) (c : CategoryCounts) :
    l.foldl (fun acc d => bumpCount acc d.course) c =
      { starter := c.starter + l.countP (fun d => d.course = "Starter"),
        mainCourse := c.mainCourse + l.countP (fun d => d.course = "Main Course"),
        dessert := c.dessert + l.countP (fun d => d.course = "Dessert"),
        drink := c.drink + l.countP (fun d => d.course = "Drink") } := by
  induction l generalizing c with
  | nil => simp
  | cons d l ih =>
    rw [List.foldl_cons, ih]
    by_cases h1 : d.course = "Starter"
    · simp [bumpCount, h1, List.countP_cons, CategoryCounts.mk.injEq]
      omega
    · by_cases h2 : d.course = "Main Course"
      · simp [bumpCount, h1, h2, List.countP_cons, CategoryCounts.mk.injEq]
        omega
      · by_cases h3 : d.course = "Dessert"
        · simp [bumpCount, h1, h2, h3, List.countP_cons, CategoryCounts.mk.injEq]
          omega
        · by_cases h4 : d.course = "Drink"
          · simp [bumpCount, h1, h2, h3, h4, List.countP_cons, CategoryCounts.mk.injEq]
            omega
          · simp [bumpCount, h1, h2, h3, h4, List.countP_cons, CategoryCounts.mk.injEq]

/-- Claim C2: each of the four per-course counters of the derived view equals
the number of live dishes whose course matches, and the displayed total equals
the number of live dishes. -/
theorem C2_counts_match (dishes : List Dish) :
    (categoryCounts dishes).starter = dishes.countP (fun d => d.course = "Starter") ∧
    (categoryCounts dishes).mainCourse = dishes.countP (fun d => d.course = "Main Course") ∧
    (categoryCounts dishes).dessert = dishes.countP (fun d => d.course = "Dessert") ∧
    (categoryCounts dishes).drink = dishes.countP (fun d => d.course = "Drink") ∧
    totalDishes dishes = dishes.length := by
  have hperm : (sortedDishes dishes).Perm dishes := List.perm_insertionSort courseLe dishes
  simp only [categoryCounts]
  rw [foldl_bumpCount_eq]
  refine ⟨?_, ?_, ?_, ?_, rfl⟩ <;> simp [hperm.countP_eq]

lemma filter_course_orderedInsert (c : String) (a : Dish) (l : List Dish) :
    (l.orderedInsert courseLe a).filter (fun d => d.course = c) =
      (a :: l).filter (fun d => d.course = c) := by
  induction l with
  | nil => rfl
  | cons b l ih =>
    simp only [List.orderedInsert]
    by_cases hab : courseLe a b
    · rw [if_pos hab]
    · rw [if_neg hab]
      by_cases hb : b.course = c
      · by_cases ha : a.course = c
        · exact absurd (by simp [courseLe, ha, hb]) hab
        · simp [List.filter_cons, ha, hb, ih]
      · simp [List.filter_cons, hb, ih]

lemma filter_course_insertionSort (c : String) (l : List Dish) :
    (l.insertionSort courseLe).filter (fun d => d.course = c) =
      l.filter (fun d => d.course = c) := by
  induction l with
  | nil => rfl
  | cons a l ih =>
    simp only [List.insertionSort]
    rw [filter_course_orderedInsert]
    simp [List.filter_cons, ih]

instance : IsTotal Dish courseLe :=
  ⟨fun a b => Int.le_total (jsIndexOf order a.course) (jsIndexOf order b.course)⟩

instance : IsTrans Dish courseLe := ⟨fun _ _ _ h1 h2 => le_trans h1 h2⟩

/-- Claim C3: the derived view is ordered by the fixed course priority
(Starter, Main Course, Dessert, Drink have comparator keys 0, 1, 2, 3, so all
Starters come before all Main Courses, before all Desserts, before all
Drinks), and within each course the relative insertion order is preserved
(the per-course sublists are exactly the filters of the input). -/
theorem C3_sorted_stable (dishes : List Dish) :
    jsIndexOf order "Starter" = 0 ∧ jsIndexOf order "Main Course" = 1 ∧
    jsIndexOf order "Dessert" = 2 ∧ jsIndexOf order "Drink" = 3 ∧
    (sortedDishes dishes).Pairwise courseLe ∧
    (∀ c : String, (sortedDishes dishes).filter (fun d => d.course = c) =
      dishes.filter (fun d => d.course = c)) := by
  refine ⟨by decide, by decide, by decide, by decide, ?_, ?_⟩
  · exact List.sorted_insertionSort courseLe dishes
  · intro c
    exact filter_course_insertionSort c dishes

lemma length_filter_ne_of_nodup (l : List Dish) (t : String)
    (hnd : (l.map Dish.id).Nodup) (hm : t ∈ l.map Dish.id) :
    (l.filter (fun d => d.id ≠ t)).length + 1 = l.length := by
  induction l with
  | nil => simp at hm
  | cons d l ih =>
    simp only [List.map_cons, List.nodup_cons, List.mem_cons] at hnd hm
    obtain ⟨hd, hnd⟩ := hnd
    rcases hm with hm | hm
    · subst hm
      have hall : l.filter (fun x => x.id ≠ d.id) = l := by
        rw [List.filter_eq_self]
        intro x hx
        simp only [ne_eq, decide_eq_true_eq]
        exact fun hcon => hd (hcon ▸ List.mem_map_of_mem Dish.id hx)
      rw [List.filter_cons, if_neg (show ¬(decide (d.id ≠ d.id)) = true by simp), hall,
        List.length_cons]
    · have hdt : d.id ≠ t := fun hcon => hd (hcon ▸ hm)
      rw [List.filter_cons, if_pos (show (decide (d.id ≠ t)) = true by simp [hdt]),
        List.length_cons, List.length_cons, ih hnd hm]

lemma not_mem_removeDish (s : AppState) (t : String) :
    t ∉ (removeDish s t).dishes.map Dish.id := by
  intro hmem
  rw [List.mem_map] at hmem
  obtain ⟨d, hd, hid⟩ := hmem
  rw [removeDish] at hd
  simp only [List.mem_filter, ne_eq, decide_eq_true_eq] at hd
  exact hd.2 hid

lemma removeDish_absent (s : AppState) (t : String) (h : t ∉ s.dishes.map Dish.id) :
    removeDish s t = s := by
  have hall : s.dishes.filter (fun d => d.id ≠ t) = s.dishes := by
    rw [List.filter_eq_self]
    intro x hx
    simp only [ne_eq, decide_eq_true_eq]
    exact fun hcon => h (hcon ▸ List.mem_map_of_mem Dish.id hx)
  cases s with
  | mk n de c p ds =>
    simp only [removeDish] at hall ⊢
    rw [hall]

/-- Claim C4, counterexample: two live dishes can share an identifier (the
code's identifiers are `Date.now()` strings, not guaranteed distinct), and
removing that identifier deletes BOTH dishes: the size drops by two, not by
exactly one. -/
theorem C4_counterexample :
    ("5" ∈ (⟨"", "", "Starter", "", [⟨"5", "A", "", "Starter", "1"⟩,
        ⟨"5", "B", "", "Starter", "2"⟩]⟩ : AppState).dishes.map Dish.id) ∧
    (⟨"", "", "Starter", "", [⟨"5", "A", "", "Starter", "1"⟩,
        ⟨"5", "B", "", "Starter", "2"⟩]⟩ : AppState).dishes.length = 2 ∧
    (removeDish ⟨"", "", "Starter", "", [⟨"5", "A", "", "Starter", "1"⟩,
        ⟨"5", "B", "", "Starter", "2"⟩]⟩ "5").dishes.length = 0 := by decide

/-- Claim C4, amended: when the live identifiers are pairwise distinct (the
intended invariant), removing a present identifier decreases the size by
exactly one and the identifier no longer appears; removing an absent
identifier leaves the state unchanged, with no error. -/
theorem C4_remove_amended (s : AppState) (t : String) :
    ((s.dishes.map Dish.id).Nodup → t ∈ s.dishes.map Dish.id →
      (removeDish s t).dishes.length + 1 = s.dishes.length ∧
      t ∉ (removeDish s t).dishes.map Dish.id) ∧
    (t ∉ s.dishes.map Dish.id → removeDish s t = s) := by
  constructor
  · intro hnd hm
    exact ⟨length_filter_ne_of_nodup s.dishes t hnd hm, not_mem_removeDish s t⟩
  · exact removeDish_absent s t

/-- Claim C4, witness: removing the present identifier "1" from a two-dish
collection with distinct identifiers. -/
theorem C4_remove_amended_witness :
    (removeDish ⟨"", "", "Starter", "", [⟨"1", "A", "", "Starter", "1"⟩,
        ⟨"2", "B", "", "Starter", "2"⟩]⟩ "1").dishes.length + 1 =
      (⟨"", "", "Starter", "", [⟨"1", "A", "", "Starter", "1"⟩,
        ⟨"2", "B", "", "Starter", "2"⟩]⟩ : AppState).dishes.length ∧
    "1" ∉ (removeDish ⟨"", "", "Starter", "", [⟨"1", "A", "", "Starter", "1"⟩,
        ⟨"2", "B", "", "Starter", "2"⟩]⟩ "1").dishes.map Dish.id :=
  (C4_remove_amended ⟨"", "", "Starter", "", [⟨"1", "A", "", "Starter", "1"⟩,
        ⟨"2", "B", "", "Starter", "2"⟩]⟩ "1").1 (by decide) (by decide)

lemma digitsFuel_irrel (n : Nat) :
    ∀ f₁ f₂, n ≤ f₁ → n ≤ f₂ → digitsFuel f₁ n = digitsFuel f₂ n := by
  induction n using Nat.strong_induction_on with
  | _ n ih =>
    intro f₁ f₂ h₁ h₂
    rcases n with _ | m
    · cases f₁ <;> cases f₂ <;> rfl
    · rcases f₁ with _ | g
      · omega
      · rcases f₂ with _ | k
        · omega
        · simp only [digitsFuel]
          congr 1
          exact ih ((m + 1) / 10) (by omega) g k (by omega) (by omega)

lemma jsDigits_pos (n : Nat) (h : n ≠ 0) : jsDigits n = n % 10 :: jsDigits (n / 10) := by
  rcases n with _ | m
  · exact absurd rfl h
  · show digitsFuel (m + 1) (m + 1) = _
    simp only [digitsFuel, jsDigits]
    congr 1
    exact digitsFuel_irrel ((m + 1) / 10) m ((m + 1) / 10) (by omega) (by omega)

lemma undigits_jsDigits (n : Nat) : undigits (jsDigits n) = n := by
  induction n using Nat.strong_induction_on with
  | _ n ih =>
    by_cases h : n = 0
    · subst h; rfl
    · rw [jsDigits_pos n h]
      simp only [undigits]
      rw [ih (n / 10) (by omega)]
      omega

lemma jsDigits_injective {a b : Nat} (h : jsDigits a = jsDigits b) : a = b := by
  rw [← undigits_jsDigits a, ← undigits_jsDigits b, h]

lemma jsDigits_lt_ten (n : Nat) : ∀ d ∈ jsDigits n, d < 10 := by
  induction n using Nat.strong_induction_on with
  | _ n ih =>
    by_cases h : n = 0
    · subst h; intro d hd; simp [jsDigits, digitsFuel] at hd
    · rw [jsDigits_pos n h]
      intro d hd
      rcases List.mem_cons.mp hd with hd | hd
      · omega
      · exact ih (n / 10) (by omega) d hd

lemma digitChar_inj_lt {a b : Nat} (ha : a < 10) (hb : b < 10)
    (h : Nat.digitChar a = Nat.digitChar b) : a = b := by
  revert h
  interval_cases a <;> interval_cases b <;> decide

lemma map_digitChar_inj :
    ∀ la lb : List Nat, (∀ d ∈ la, d < 10) → (∀ d ∈ lb, d < 10) →
      la.map Nat.digitChar = lb.map Nat.digitChar → la = lb := by
  intro la
  induction la with
  | nil =>
    intro lb _ _ h
    cases lb with
    | nil => rfl
    | cons e lb => simp at h
  | cons d la ih =>
    intro lb ha hb h
    cases lb with
    | nil => simp at h
    | cons e lb =>
      simp only [List.map_cons, List.cons.injEq] at h
      obtain ⟨h1, h2⟩ := h
      have hde := digitChar_inj_lt (ha d (by simp)) (hb e (by simp)) h1
      rw [hde, ih lb (fun x hx => ha x (by simp [hx])) (fun x hx => hb x (by simp [hx])) h2]

lemma jsToString_injective {a b : Nat} (h : jsToString a = jsToString b) : a = b := by
  unfold jsToString at h
  by_cases ha : a = 0 <;> by_cases hb : b = 0
  · omega
  · exfalso
    rw [if_pos ha, if_neg hb] at h
    have hdata : (['0'] : List Char) = ((jsDigits b).map Nat.digitChar).reverse :=
      congrArg String.data h
    have hmap : (jsDigits b).map Nat.digitChar = ['0'] := by
      simpa using (congrArg List.reverse hdata).symm
    have hb0 : jsDigits b = [0] :=
      map_digitChar_inj (jsDigits b) [0] (jsDigits_lt_ten b)
        (by intro d hd; simp at hd; omega) (by rw [hmap]; rfl)
    have := undigits_jsDigits b
    rw [hb0] at this
    simp [undigits] at this
    exact hb this.symm
  · exfalso
    rw [if_neg ha, if_pos hb] at h
    have hdata : ((jsDigits a).map Nat.digitChar).reverse = (['0'] : List Char) :=
      congrArg String.data h
    have hmap : (jsDigits a).map Nat.digitChar = ['0'] := by
      simpa using congrArg List.reverse hdata
    have ha0 : jsDigits a = [0] :=
      map_digitChar_inj (jsDigits a) [0] (jsDigits_lt_ten a)
        (by intro d hd; simp at hd; omega) (by rw [hmap]; rfl)
    have := undigits_jsDigits a
    rw [ha0] at this
    simp [undigits] at this
    exact ha this.symm
  · rw [if_neg ha, if_neg hb] at h
    have hdata : ((jsDigits a).map Nat.digitChar).reverse =
        ((jsDigits b).map Nat.digitChar).reverse := congrArg String.data h
    rw [List.reverse_inj] at hdata
    exact jsDigits_injective
      (map_digitChar_inj (jsDigits a) (jsDigits b) (jsDigits_lt_ten a) (jsDigits_lt_ten b)
        hdata)

lemma nodup_ids_foldl (evs : List Event) :
    ∀ s : AppState, (submitTimes evs).Nodup →
      (s.dishes.map Dish.id).Nodup →
      (∀ d ∈ s.dishes, ∀ t ∈ submitTimes evs, d.id ≠ jsToString t) →
      (((evs.foldl step s).dishes.map Dish.id)).Nodup := by
  induction evs with
  | nil => intro s _ hids _; exact hids
  | cons e evs ih =>
    intro s htimes hids hfresh
    rw [List.foldl_cons]
    cases e with
    | setDishName v => exact ih _ htimes hids hfresh
    | setDescription v => exact ih _ htimes hids hfresh
    | setCourse v => exact ih _ htimes hids hfresh
    | setPrice v => exact ih _ htimes hids hfresh
    | tapDish t =>
      apply ih _ htimes
      · exact List.Nodup.sublist (List.Sublist.map Dish.id (List.filter_sublist s.dishes)) hids
      · intro d hd u hu
        exact hfresh d (List.mem_of_mem_filter hd) u hu
    | submit now =>
      have ht : submitTimes (Event.submit now :: evs) = now :: submitTimes evs := rfl
      rw [ht] at htimes
      obtain ⟨hnotin, htimes'⟩ := List.nodup_cons.mp htimes
      by_cases hguard : s.dishName = "" ∨ s.price = ""
      · rw [show step s (.submit now) = s from addDish_noop s now hguard]
        apply ih _ htimes' hids
        intro d hd u hu
        exact hfresh d hd u (by rw [ht]; exact List.mem_cons_of_mem _ hu)
      · push_neg at hguard
        rw [show step s (.submit now) = _ from addDish_success s now hguard.1 hguard.2]
        apply ih _ htimes'
        · rw [List.map_append]
          refine List.nodup_append.mpr ⟨hids, List.nodup_singleton _, ?_⟩
          intro x hx hy
          rw [List.mem_map] at hx
          obtain ⟨d, hd, hdx⟩ := hx
          simp only [newDish, List.map_cons, List.map_nil, List.mem_singleton] at hy
          exact hfresh d hd now (by rw [ht]; exact List.mem_cons_self _ _) (hdx.trans hy)
        · intro d hd u hu
          rcases List.mem_append.mp hd with hd | hd
          · exact hfresh d hd u (by rw [ht]; exact List.mem_cons_of_mem _ hu)
          · rw [List.mem_singleton] at hd
            subst hd
            intro hcon
            have : now = u := jsToString_injective hcon
            exact hnotin (this ▸ hu)

/-- Claim C6, counterexample: the identifier is `Date.now().toString()`, so
two submissions at the same millisecond create two live dishes with the SAME
identifier — uniqueness is not guaranteed by the code. -/
theorem C6_counterexample :
    (run [.setDishName "A", .setPrice "1", .submit 5,
          .setDishName "B", .setPrice "2", .submit 5]).dishes.length = 2 ∧
    ¬ ((run [.setDishName "A", .setPrice "1", .submit 5,
             .setDishName "B", .setPrice "2", .submit 5]).dishes.map Dish.id).Nodup := by
  decide

/-- Claim C6, amended: live identifiers are pairwise distinct in every session
in which no two Submit events carry the same `Date.now()` value; every Append
and Remove then preserves uniqueness (uniqueness can only fail when two
submissions happen in the same millisecond). -/
theorem C6_unique_ids_amended (evs : List Event) (h : (submitTimes evs).Nodup) :
    ((run evs).dishes.map Dish.id).Nodup := by
  apply nodup_ids_foldl evs initialState h
  · simp [initialState]
  · intro d hd
    simp [initialState] at hd

/-- Claim C6, witness: a session with two submissions at distinct times (and a
removal) keeps the identifiers pairwise distinct. -/
theorem C6_unique_ids_amended_witness :
    ((run [.setDishName "A", .setPrice "1", .submit 5, .setDishName "B", .setPrice "2",
           .submit 6, .tapDish "5"]).dishes.map Dish.id).Nodup :=
  C6_unique_ids_amended _ (by decide)

lemma courses_foldl (evs : List Event) :
    ∀ s : AppState, s.course ∈ pickerValues → (∀ d ∈ s.dishes, d.course ∈ pickerValues) →
      (∀ v, Event.setCourse v ∈ evs → v ∈ pickerValues) →
      (evs.foldl step s).course ∈ pickerValues ∧
        ∀ d ∈ (evs.foldl step s).dishes, d.course ∈ pickerValues := by
  induction evs with
  | nil => intro s hc hd _; exact ⟨hc, hd⟩
  | cons e evs ih =>
    intro s hc hd hevs
    rw [List.foldl_cons]
    have hevs' : ∀ v, Event.setCourse v ∈ evs → v ∈ pickerValues :=
      fun v hv => hevs v (List.mem_cons_of_mem _ hv)
    cases e with
    | setDishName v => exact ih _ hc hd hevs'
    | setDescription v => exact ih _ hc hd hevs'
    | setPrice v => exact ih _ hc hd hevs'
    | setCourse v => exact ih _ (hevs v (List.mem_cons_self _ _)) hd hevs'
    | tapDish t => exact ih _ hc (fun d hdm => hd d (List.mem_of_mem_filter hdm)) hevs'
    | submit now =>
      by_cases hg : s.dishName = "" ∨ s.price = ""
      · rw [show step s (.submit now) = s from addDish_noop s now hg]
        exact ih _ hc hd hevs'
      · push_neg at hg
        rw [show step s (.submit now) = _ from addDish_success s now hg.1 hg.2]
        apply ih _ (by simp [pickerValues]) ?_ hevs'
        intro d hdm
        rcases List.mem_append.mp hdm with hdm | hdm
        · exact hd d hdm
        · rw [List.mem_singleton] at hdm
          subst hdm
          simpa [newDish] using hc

lemma countP_courses_sum (l : List Dish) (h : ∀ d ∈ l, d.course ∈ pickerValues) :
    l.countP (fun d => d.course = "Starter") + l.countP (fun d => d.course = "Main Course") +
      l.countP (fun d => d.course = "Dessert") + l.countP (fun d => d.course = "Drink") =
      l.length := by
  induction l with
  | nil => rfl
  | cons d l ih =>
    have hd := h d (List.mem_cons_self _ _)
    have ih' := ih (fun x hx => h x (List.mem_cons_of_mem _ hx))
    simp only [pickerValues, List.mem_cons, List.not_mem_nil, or_false] at hd
    simp only [List.countP_cons, List.length_cons]
    rcases hd with h1 | h1 | h1 | h1
    · simp [h1]
      omega
    · simp [h1]
      omega
    · simp [h1]
      omega
    · simp [h1]
      omega

/-- Claim C10: in every session whose course selections come from the Picker
(its four values), every live dish's course — and the form's course — is one
of the four enumerated values, which is exactly what makes the per-course
tally account for every dish: the four counters sum to the collection size,
so no dish falls outside the four counter keys. -/
theorem C10_course_enum_invariant (evs : List Event)
    (hevs : ∀ v, Event.setCourse v ∈ evs → v ∈ pickerValues) :
    ((run evs).course ∈ pickerValues ∧
      ∀ d ∈ (run evs).dishes, d.course ∈ pickerValues) ∧
    (categoryCounts (run evs).dishes).starter + (categoryCounts (run evs).dishes).mainCourse +
        (categoryCounts (run evs).dishes).dessert + (categoryCounts (run evs).dishes).drink =
      (run evs).dishes.length := by
  have hmain := courses_foldl evs initialState (by simp [initialState, pickerValues])
    (by intro d hd; simp [initialState] at hd) hevs
  refine ⟨hmain, ?_⟩
  have hperm : (sortedDishes (run evs).dishes).Perm (run evs).dishes :=
    List.perm_insertionSort courseLe _
  simp only [categoryCounts]
  rw [foldl_bumpCount_eq]
  simp only [Nat.zero_add, hperm.countP_eq]
  exact countP_courses_sum (run evs).dishes hmain.2

/-- Claim C10, witness: a session that selects "Dessert" and submits keeps
every course within the four Picker values, and the counters sum to the size. -/
theorem C10_course_enum_invariant_witness :
    ((run [.setCourse "Dessert", .setDishName "Cake", .setPrice "30", .submit 2]).course ∈
        pickerValues ∧
      ∀ d ∈ (run [.setCourse "Dessert", .setDishName "Cake", .setPrice "30",
          .submit 2]).dishes, d.course ∈ pickerValues) ∧
    (categoryCounts (run [.setCourse "Dessert", .setDishName "Cake", .setPrice "30",
          .submit 2]).dishes).starter +
        (categoryCounts (run [.setCourse "Dessert", .setDishName "Cake", .setPrice "30",
          .submit 2]).dishes).mainCourse +
        (categoryCounts (run [.setCourse "Dessert", .setDishName "Cake", .setPrice "30",
          .submit 2]).dishes).dessert +
        (categoryCounts (run [.setCourse "Dessert", .setDishName "Cake", .setPrice "30",
          .submit 2]).dishes).drink =
      (run [.setCourse "Dessert", .setDishName "Cake", .setPrice "30",
          .submit 2]).dishes.length :=
  C10_course_enum_invariant [.setCourse "Dessert", .setDishName "Cake", .setPrice "30",
    .submit 2]
    (by
      intro v hv
      simp only [List.mem_cons, List.not_mem_nil, or_false] at hv
      rcases hv with hv | hv | hv | hv <;> simp_all [pickerValues])
